import Mathlib

/-
  Verification of phukit (A/B container-image installer/updater) against its
  natural-language specification.

  The Go sources are embedded shallowly: pure string/list computations become
  Lean functions; filesystem state becomes explicit maps from paths to
  entries; external effects (blkid, /proc/cmdline, stat) become explicit
  function parameters.  Definitions mirror the Go sources in pkg/ and the
  partition/bootloader files; where the deciding source file is absent from
  the snapshot (only earlier revisions and the repository documentation are
  present), the definition is modelled from the spec and marked as such in
  its doc comment.
-/

namespace Phukit

/-! ## String helpers (modelling Go's strings / path/filepath stdlib calls) -/

/-- Boolean string prefix test, modelling Go strings.HasPrefix. -/
def strStartsWith (p s : String) : Bool :=
  p.toList.isPrefixOf s.toList

/-- Modelling Go strings.TrimPrefix: drop p from the front of s when present. -/
def strTrimPfx (p s : String) : String :=
  if strStartsWith p s then { data := s.toList.drop p.toList.length } else s

/-- Modelling Go path/filepath.Base: last element of the path, with the
trailing slashes removed; "." for the empty path, "/" for all-slash paths. -/
def filepathBase (p : String) : String :=
  if p.toList = [] then "." else
  let t := (p.toList.reverse.dropWhile (fun c => c = '/')).reverse
  if t = [] then "/" else { data := (t.reverse.takeWhile (fun c => c ≠ '/')).reverse }

/-- Accumulator pass behind strFields: split a character list on whitespace
runs, dropping empty fields. -/
def fieldsAux : List Char → List Char → List String
  | [], acc => if acc = [] then [] else [{ data := acc.reverse }]
  | c :: cs, acc =>
    if c.isWhitespace then
      if acc = [] then fieldsAux cs []
      else { data := acc.reverse } :: fieldsAux cs []
    else fieldsAux cs (c :: acc)

/-- Modelling Go strings.Fields: whitespace-separated fields, empties dropped. -/
def strFields (s : String) : List String :=
  fieldsAux s.toList []

/-- Modelling Go strings.Join(xs, " "). -/
def joinSpace : List String → String
  | [] => ""
  | [x] => x
  | x :: xs => x ++ " " ++ joinSpace xs

/-! ## Partition scheme (pkg/partition.go, src/unnamed/part_007) -/

/-- PartitionScheme from pkg/partition.go: the five device paths of the fixed
GPT layout (ESP, XBOOTLDR boot, Root1, Root2, Var). -/
structure PartitionScheme where
  EFIPartition   : String
  BootPartition  : String
  Root1Partition : String
  Root2Partition : String
  VarPartition   : String
deriving DecidableEq, Repr

/-- The partition-naming convention shared by CreatePartitions
(src/unnamed/part_007:82-107) and DetectExistingPartitionScheme
(src/pkg/update.go:529-565): nvme/mmcblk/loop device bases take a "p" infix,
all other devices a bare number suffix. -/
def usesPInfix (device : String) : Bool :=
  let deviceBase := filepathBase device
  strStartsWith "nvme" deviceBase || strStartsWith "mmcblk" deviceBase ||
    strStartsWith "loop" deviceBase

/-- Partition device paths produced by CreatePartitions
(src/unnamed/part_007:21-117, non-dry-run path): after the sgdisk calls the
five names are computed from the device path by the naming convention. -/
def CreatePartitions (device : String) : PartitionScheme :=
  if usesPInfix device then
    ⟨device ++ "p1", device ++ "p2", device ++ "p3", device ++ "p4", device ++ "p5"⟩
  else
    ⟨device ++ "1", device ++ "2", device ++ "3", device ++ "4", device ++ "5"⟩

/-- DetectExistingPartitionScheme (src/pkg/update.go:529-565): recompute the
five names positionally by the same convention, then verify each node exists
(os.Stat modelled by the devExists parameter); fail with the first missing
partition's error, otherwise return the scheme. -/
def DetectExistingPartitionScheme (device : String) (devExists : String → Bool) :
    Except String PartitionScheme :=
  let scheme := CreatePartitions device
  let parts := [scheme.EFIPartition, scheme.BootPartition, scheme.Root1Partition,
    scheme.Root2Partition, scheme.VarPartition]
  match parts.find? (fun p => !devExists p) with
  | some p => .error ("partition " ++ p ++ " does not exist")
  | none => .ok scheme

/-! ## Active/inactive root detection (src/pkg/update.go:462-526) -/

/-- The field scan inside GetActiveRootPartition (src/pkg/update.go:472-484):
the first cmdline field starting with root=UUID= is resolved through blkid,
the first starting with root=/dev/ is taken verbatim; otherwise detection
fails. -/
def resolveRootFromFields (blkid : String → Except String String) :
    List String → Except String String
  | [] => .error "could not determine active root partition from kernel command line"
  | f :: rest =>
    if strStartsWith "root=UUID=" f then blkid (strTrimPfx "root=UUID=" f)
    else if strStartsWith "root=/dev/" f then .ok (strTrimPfx "root=" f)
    else resolveRootFromFields blkid rest

/-- GetActiveRootPartition (src/pkg/update.go:462-485).  Reading /proc/cmdline
is modelled by the cmdline parameter; blkid -U by the blkid parameter. -/
def GetActiveRootPartition (cmdline : Except String String)
    (blkid : String → Except String String) : Except String String :=
  match cmdline with
  | .error e => .error ("failed to read /proc/cmdline: " ++ e)
  | .ok s => resolveRootFromFields blkid (strFields s)

/-- GetInactiveRootPartition (src/pkg/update.go:497-526).  Returns the update
target, the "root1 is active" flag, and whether a warning was printed to
stderr (the Go error result is always nil, so it is omitted).  Base names are
compared exactly as in the source. -/
def GetInactiveRootPartition (scheme : PartitionScheme)
    (cmdline : Except String String) (blkid : String → Except String String) :
    String × Bool × Bool :=
  match GetActiveRootPartition cmdline blkid with
  | .error _ => (scheme.Root2Partition, true, true)
  | .ok active =>
    let activeBase := filepathBase active
    if activeBase = filepathBase scheme.Root1Partition then
      (scheme.Root2Partition, true, false)
    else if activeBase = filepathBase scheme.Root2Partition then
      (scheme.Root1Partition, false, false)
    else
      (scheme.Root2Partition, true, true)

/-- Claim C1: for every scheme, the inactive-root computation sends an active
root resolving to Root1 to target Root2, an active root resolving to Root2 to
target Root1, and any detection failure (unreadable cmdline or an identifier
matching neither root) deterministically to target Root2 with a warning —
never a fatal error (the function is total) and never a silent no-op (the
warning flag is set on every fallback). -/
theorem GetInactiveRootPartition_spec (scheme : PartitionScheme)
    (cmdline : Except String String) (blkid : String → Except String String)
    (hdistinct : filepathBase scheme.Root1Partition ≠ filepathBase scheme.Root2Partition) :
    (∀ e, GetActiveRootPartition cmdline blkid = .error e →
      GetInactiveRootPartition scheme cmdline blkid = (scheme.Root2Partition, true, true)) ∧
    (∀ a, GetActiveRootPartition cmdline blkid = .ok a →
      filepathBase a = filepathBase scheme.Root1Partition →
      GetInactiveRootPartition scheme cmdline blkid = (scheme.Root2Partition, true, false)) ∧
    (∀ a, GetActiveRootPartition cmdline blkid = .ok a →
      filepathBase a = filepathBase scheme.Root2Partition →
      GetInactiveRootPartition scheme cmdline blkid = (scheme.Root1Partition, false, false)) ∧
    (∀ a, GetActiveRootPartition cmdline blkid = .ok a →
      filepathBase a ≠ filepathBase scheme.Root1Partition →
      filepathBase a ≠ filepathBase scheme.Root2Partition →
      GetInactiveRootPartition scheme cmdline blkid = (scheme.Root2Partition, true, true)) := by
  refine ⟨?_, ?_, ?_, ?_⟩
  · intro e he
    simp [GetInactiveRootPartition, he]
  · intro a ha h1
    simp [GetInactiveRootPartition, ha, h1]
  · intro a ha h2
    have h1 : filepathBase a ≠ filepathBase scheme.Root1Partition := by
      rw [h2]; exact fun h => hdistinct h.symm
    simp [GetInactiveRootPartition, ha, h1, h2]
    exact fun h => hdistinct h.symm
  · intro a ha h1 h2
    simp [GetInactiveRootPartition, ha, h1, h2]

/-- Witness for C1: concrete runs of all four cases on the /dev/sda scheme. -/
theorem GetInactiveRootPartition_spec_witness :
    GetInactiveRootPartition ⟨"/dev/sda1", "/dev/sda2", "/dev/sda3", "/dev/sda4", "/dev/sda5"⟩
      (.error "open /proc/cmdline: permission denied") (fun _ => .error "blkid failed") =
      ("/dev/sda4", true, true) ∧
    GetInactiveRootPartition ⟨"/dev/sda1", "/dev/sda2", "/dev/sda3", "/dev/sda4", "/dev/sda5"⟩
      (.ok "root=/dev/sda3 ro quiet") (fun _ => .error "blkid failed") =
      ("/dev/sda4", true, false) ∧
    GetInactiveRootPartition ⟨"/dev/sda1", "/dev/sda2", "/dev/sda3", "/dev/sda4", "/dev/sda5"⟩
      (.ok "root=/dev/sda4 ro quiet") (fun _ => .error "blkid failed") =
      ("/dev/sda3", false, false) ∧
    GetInactiveRootPartition ⟨"/dev/sda1", "/dev/sda2", "/dev/sda3", "/dev/sda4", "/dev/sda5"⟩
      (.ok "root=/dev/sdb1 ro quiet") (fun _ => .error "blkid failed") =
      ("/dev/sda4", true, true) := by
  refine ⟨?_, ?_, ?_, ?_⟩
  · exact (GetInactiveRootPartition_spec _ _ _ (by decide)).1
      "failed to read /proc/cmdline: open /proc/cmdline: permission denied" (by rfl)
  · exact (GetInactiveRootPartition_spec _ _ _ (by decide)).2.1 "/dev/sda3" (by rfl) (by decide)
  · exact (GetInactiveRootPartition_spec _ _ _ (by decide)).2.2.1 "/dev/sda4" (by rfl) (by decide)
  · exact (GetInactiveRootPartition_spec _ _ _ (by decide)).2.2.2 "/dev/sdb1" (by rfl)
      (by decide) (by decide)

/-- Claim C7: detection after creation is the identity on the partition
scheme — for any device whose five created partition nodes exist,
DetectExistingPartitionScheme returns exactly the scheme CreatePartitions
produced, under both naming conventions. -/
theorem DetectExisting_Create_id (device : String) (devExists : String → Bool)
    (h1 : devExists (CreatePartitions device).EFIPartition = true)
    (h2 : devExists (CreatePartitions device).BootPartition = true)
    (h3 : devExists (CreatePartitions device).Root1Partition = true)
    (h4 : devExists (CreatePartitions device).Root2Partition = true)
    (h5 : devExists (CreatePartitions device).VarPartition = true) :
    DetectExistingPartitionScheme device devExists = .ok (CreatePartitions device) := by
  unfold DetectExistingPartitionScheme
  simp [List.find?_eq_none, h1, h2, h3, h4, h5]

/-- Witness for C7: round trips on a whole-disk device and on an NVMe device,
with existence exactly the five created nodes. -/
theorem DetectExisting_Create_id_witness :
    DetectExistingPartitionScheme "/dev/sda"
      (fun p => p ∈ ["/dev/sda1", "/dev/sda2", "/dev/sda3", "/dev/sda4", "/dev/sda5"]) =
      .ok ⟨"/dev/sda1", "/dev/sda2", "/dev/sda3", "/dev/sda4", "/dev/sda5"⟩ ∧
    DetectExistingPartitionScheme "/dev/nvme0n1"
      (fun p => p ∈ ["/dev/nvme0n1p1", "/dev/nvme0n1p2", "/dev/nvme0n1p3",
        "/dev/nvme0n1p4", "/dev/nvme0n1p5"]) =
      .ok ⟨"/dev/nvme0n1p1", "/dev/nvme0n1p2", "/dev/nvme0n1p3",
        "/dev/nvme0n1p4", "/dev/nvme0n1p5"⟩ := by
  constructor
  · have h := DetectExisting_Create_id "/dev/sda"
      (fun p => p ∈ ["/dev/sda1", "/dev/sda2", "/dev/sda3", "/dev/sda4", "/dev/sda5"])
      (by decide) (by decide) (by decide) (by decide) (by decide)
    rw [h]; rfl
  · have h := DetectExisting_Create_id "/dev/nvme0n1"
      (fun p => p ∈ ["/dev/nvme0n1p1", "/dev/nvme0n1p2", "/dev/nvme0n1p3",
        "/dev/nvme0n1p4", "/dev/nvme0n1p5"])
      (by decide) (by decide) (by decide) (by decide) (by decide)
    rw [h]; rfl

/-! ## GRUB update configuration (src/pkg/update.go:1006-1094) -/

/-- One line of the grub.cfg template written by updateGRUBBootloader. -/
inductive GrubLine
  | setTimeout (n : Nat)
  | setDefault (n : Nat)
  | blank
  | menuStart (title : String)
  | linuxLine (kernelPath : String) (cmdlineArgs : List String)
  | initrdLine (path : String)
  | menuEnd
deriving DecidableEq, Repr

/-- The kernel command line built by updateGRUBBootloader
(src/pkg/update.go:1036-1041): root=UUID of the target, ro, console=tty0,
then the caller-supplied kernel arguments appended last. -/
def updateGRUBKernelCmdline (targetUUID : String) (kernelArgs : List String) :
    List String :=
  ["root=UUID=" ++ targetUUID, "ro", "console=tty0"] ++ kernelArgs

/-- The grub.cfg written by updateGRUBBootloader (src/pkg/update.go:1072-1085)
as its list of lines: timeout/default header, then a first menu entry for the
update target and a second rollback entry for the previously active root. -/
def updateGRUBBootloaderCfgLines (osName kernelVersion initrd targetUUID activeUUID : String)
    (kernelArgs : List String) : List GrubLine :=
  [.setTimeout 5, .setDefault 0, .blank,
   .menuStart osName,
   .linuxLine ("/vmlinuz-" ++ kernelVersion) (updateGRUBKernelCmdline targetUUID kernelArgs),
   .initrdLine ("/" ++ initrd),
   .menuEnd, .blank,
   .menuStart (osName ++ " (Previous)"),
   .linuxLine ("/vmlinuz-" ++ kernelVersion) ["root=UUID=" ++ activeUUID, "ro", "console=tty0"],
   .initrdLine ("/" ++ initrd),
   .menuEnd]

/-- Byte-level rendering of a grub.cfg line, matching the Go fmt.Sprintf
template character for character. -/
def renderGrubLine : GrubLine → String
  | .setTimeout n => "set timeout=" ++ toString n
  | .setDefault n => "set default=" ++ toString n
  | .blank => ""
  | .menuStart t => "menuentry \x27" ++ t ++ "\x27 \x7b"
  | .linuxLine k args => "    linux " ++ k ++ " " ++ joinSpace args
  | .initrdLine p => "    initrd " ++ p
  | .menuEnd => "\x7d"

/-- The full grub.cfg contents written by updateGRUBBootloader. -/
def updateGRUBBootloaderCfg (osName kernelVersion initrd targetUUID activeUUID : String)
    (kernelArgs : List String) : String :=
  String.intercalate "\n"
    ((updateGRUBBootloaderCfgLines osName kernelVersion initrd targetUUID activeUUID
      kernelArgs).map renderGrubLine) ++ "\n"

/-- Test for a menuentry opening line. -/
def isMenuStart : GrubLine → Bool
  | .menuStart _ => true
  | _ => false

/-- Extract the kernel command line carried by a linux line. -/
def cmdlineOfLine : GrubLine → Option (List String)
  | .linuxLine _ args => some args
  | _ => none

/-- Extract the index set by a set default line. -/
def defaultOfLine : GrubLine → Option Nat
  | .setDefault n => some n
  | _ => none

/-- Claim C2: after every successful update the written grub.cfg holds exactly
two menuentry blocks; default=0 selects the first, whose command line starts
with root=UUID of the new update target; the second block's command line
references root=UUID of the root that was active going into the update; and
the file is the newline rendering of exactly these lines. -/
theorem updateGRUBBootloader_two_entries
    (osName kernelVersion initrd targetUUID activeUUID : String) (kernelArgs : List String) :
    ((updateGRUBBootloaderCfgLines osName kernelVersion initrd targetUUID activeUUID
        kernelArgs).filter isMenuStart).length = 2 ∧
    (updateGRUBBootloaderCfgLines osName kernelVersion initrd targetUUID activeUUID
        kernelArgs).filterMap defaultOfLine = [0] ∧
    (updateGRUBBootloaderCfgLines osName kernelVersion initrd targetUUID activeUUID
        kernelArgs).filterMap cmdlineOfLine =
      [("root=UUID=" ++ targetUUID) :: "ro" :: "console=tty0" :: kernelArgs,
       ["root=UUID=" ++ activeUUID, "ro", "console=tty0"]] ∧
    updateGRUBBootloaderCfg osName kernelVersion initrd targetUUID activeUUID kernelArgs =
      String.intercalate "\n"
        ((updateGRUBBootloaderCfgLines osName kernelVersion initrd targetUUID activeUUID
          kernelArgs).map renderGrubLine) ++ "\n" := by
  refine ⟨rfl, rfl, ?_, rfl⟩
  simp [updateGRUBBootloaderCfgLines, updateGRUBKernelCmdline, cmdlineOfLine, List.filterMap]

/-! ## Kernel command-line grammar (install vs update generators) -/

/-- The kernel command line assembled by the install-time
generateSystemdBootConfig (src/unnamed/part_005:393-400): root UUID, rw, the
systemd.mount-extra directive binding the Var partition to /var, then the
caller-supplied arguments. -/
def generateSystemdBootKernelCmdline (rootUUID varUUID : String) (kernelArgs : List String) :
    List String :=
  ["root=UUID=" ++ rootUUID, "rw",
   "systemd.mount-extra=UUID=" ++ varUUID ++ ":/var:ext4:defaults"] ++ kernelArgs

/-- The kernel command line assembled by the install-time generateGRUBConfig
(src/unnamed/part_005:239-247): root UUID, ro, console=tty0, the
systemd.mount-extra directive, then the caller-supplied arguments. -/
def generateGRUBKernelCmdline (rootUUID varUUID : String) (kernelArgs : List String) :
    List String :=
  ["root=UUID=" ++ rootUUID, "ro", "console=tty0",
   "systemd.mount-extra=UUID=" ++ varUUID ++ ":/var:ext4:defaults"] ++ kernelArgs

/-- The kernel command line assembled by the update-time
updateSystemdBootBootloader (src/pkg/update.go:1132-1137): root UUID, rw,
then the caller-supplied arguments — no systemd.mount-extra directive. -/
def updateSystemdBootKernelCmdline (targetUUID : String) (kernelArgs : List String) :
    List String :=
  ["root=UUID=" ++ targetUUID, "rw"] ++ kernelArgs

/-- Whether some token of a kernel command line is a systemd.mount-extra
directive. -/
def hasMountExtra (cmdline : List String) : Bool :=
  cmdline.any (fun tok => strStartsWith "systemd.mount-extra=" tok)

/-- Claim C8 (code bug): the claim requires every generated kernel command
line to carry a systemd.mount-extra directive binding the Var partition to
/var, and the install-time generators do; but the update-time systemd-boot
generator emits only root=UUID and rw before the extra arguments, so the
command line written at update time carries no mount-extra directive at
all — evaluated here at the concrete failing input targetUUID="U",
kernelArgs=[]. -/
theorem updateSystemdBoot_cmdline_missing_mount_extra :
    updateSystemdBootKernelCmdline "U" [] = ["root=UUID=U", "rw"] ∧
    hasMountExtra (updateSystemdBootKernelCmdline "U" []) = false ∧
    hasMountExtra (generateSystemdBootKernelCmdline "U" "V" []) = true ∧
    hasMountExtra (generateGRUBKernelCmdline "U" "V" []) = true := by
  refine ⟨rfl, by decide, by decide, by decide⟩

/-! ## Destructive-operation confirmation gates
(src/pkg/bootc.go:281-341 InstallComplete, src/pkg/update.go:1179-1227
PerformUpdate) -/

/-- Destructive steps of the install path: dry-run performs none, otherwise
the wipe, partitioning, formatting and extraction run in this order. -/
def installDestructiveSteps (dryRun : Bool) : List String :=
  if dryRun then [] else ["WipeDisk", "CreatePartitions", "FormatPartitions", "Extract"]

/-- Destructive steps of the update path: dry-run performs none, otherwise
the target root is cleared and the new image extracted into it. -/
def updateDestructiveSteps (dryRun : Bool) : List String :=
  if dryRun then [] else ["ClearTarget", "Extract"]

/-- Control-flow of InstallComplete (src/pkg/bootc.go:281-341) reduced to its
confirmation gate: the prompt runs only when neither dry-run nor JSON output
mode is active; a response other than the exact token yes aborts with the
cancellation error before WipeDisk; otherwise the destructive steps run.
There is no force flag on the installer. -/
def InstallComplete (dryRun isJSON : Bool) (response : String) :
    Except String (List String) :=
  if !dryRun && !isJSON then
    if response ≠ "yes" then .error "installation cancelled by user"
    else .ok (installDestructiveSteps dryRun)
  else .ok (installDestructiveSteps dryRun)

/-- Control-flow of PerformUpdate (src/pkg/update.go:1179-1227) reduced to its
confirmation gate: the prompt runs only when neither dry-run nor force is
set; a response other than the exact token yes aborts with the cancellation
error before Update() runs; otherwise the destructive steps run. -/
def PerformUpdate (dryRun force : Bool) (response : String) :
    Except String (List String) :=
  if !dryRun && !force then
    if response ≠ "yes" then .error "update cancelled by user"
    else .ok (updateDestructiveSteps dryRun)
  else .ok (updateDestructiveSteps dryRun)

/-- Counterexample to claim C9: with JSON output mode active (which is not a
force flag — the installer has no force flag at all), a non-dry-run install
reaches every destructive step although the operator never typed yes. -/
theorem installComplete_json_counterexample :
    ("no" : String) ≠ "yes" ∧
    InstallComplete false true "no" =
      .ok ["WipeDisk", "CreatePartitions", "FormatPartitions", "Extract"] := by
  exact ⟨by decide, rfl⟩

/-- Claim C9 as amended: for non-dry-run invocations, the update path performs
no destructive step unless the operator typed the exact token yes or the
force flag was supplied, and anything else aborts with a cancellation error
before any destructive step; the install path has no force flag and instead
skips the confirmation prompt exactly when the output is in JSON mode,
cancelling on any response other than yes only in interactive (non-JSON)
mode. -/
theorem confirmation_gate_amended (response : String) (h : response ≠ "yes") :
    PerformUpdate false false response = .error "update cancelled by user" ∧
    PerformUpdate false true response = .ok ["ClearTarget", "Extract"] ∧
    PerformUpdate false false "yes" = .ok ["ClearTarget", "Extract"] ∧
    InstallComplete false false response = .error "installation cancelled by user" ∧
    InstallComplete false true response =
      .ok ["WipeDisk", "CreatePartitions", "FormatPartitions", "Extract"] ∧
    InstallComplete false false "yes" =
      .ok ["WipeDisk", "CreatePartitions", "FormatPartitions", "Extract"] := by
  refine ⟨?_, rfl, rfl, ?_, rfl, rfl⟩
  · simp [PerformUpdate, h]
  · simp [InstallComplete, h]

/-- Witness for the amended C9 at the concrete response no. -/
theorem confirmation_gate_amended_witness :
    PerformUpdate false false "no" = .error "update cancelled by user" ∧
    InstallComplete false false "no" = .error "installation cancelled by user" := by
  exact ⟨(confirmation_gate_amended "no" (by decide)).1,
    (confirmation_gate_amended "no" (by decide)).2.2.2.1⟩

/-! ## /etc persistence engine (src/pkg/etc_persistence.go:141-283)

The /var/etc store is modelled as a map from relative paths (component
lists) to filesystem entries.  The container's /etc tree is the list of
paths visited by filepath.Walk in walk order, each with its entry.  rsync
and copyFile are modelled as succeeding verbatim copies; the source ignores
their errors (printing warnings only). -/

/-- A filesystem entry: a directory or a regular file with its contents. -/
inductive FsEntry
  | dir
  | file (content : String)
deriving DecidableEq, Repr

/-- State of a directory tree: relative path (component list) to entry. -/
abbrev EtcState := List String → Option FsEntry

/-- Point update of a tree map (a single write at one path). -/
def fnUpdate (s : EtcState) (p : List String) (e : Option FsEntry) : EtcState :=
  fun q => if q = p then e else s q

/-- The nonempty prefixes of a path, shortest first, the path itself last. -/
def ancestorsOf (p : List String) : List (List String) :=
  (List.range' 1 p.length).map (fun n => p.take n)

/-- One step of os.MkdirAll: create the directory if nothing is there yet. -/
def mkdirStep (acc : EtcState) (q : List String) : EtcState :=
  if (acc q).isSome then acc else fnUpdate acc q (some FsEntry.dir)

/-- Modelling os.MkdirAll(d): create d and its missing ancestors as
directories, leaving every existing entry alone. -/
def mkdirAll (s : EtcState) (d : List String) : EtcState :=
  (ancestorsOf d).foldl mkdirStep s

/-- Base name of a relative path, modelling filepath.Base of the joined
relative path as used by the merge walk. -/
def pathBase (p : List String) : String :=
  (p.getLast?).getD ""

/-- The always-refresh allow-list of MergeEtcFromActive
(src/pkg/etc_persistence.go:203-205): system identity files that are always
taken from the container. -/
def systemFiles : List String := ["os-release"]

/-- One step of the merge walk of MergeEtcFromActive
(src/pkg/etc_persistence.go:207-242): allow-listed base names are copied
unconditionally (directories skipped); any path already present in /var/etc
is left untouched; new directories are created via MkdirAll, new files are
copied after creating their parent directories. -/
def mergeEntryStep (varEtc : EtcState) (pe : List String × FsEntry) : EtcState :=
  if systemFiles.contains (pathBase pe.1) then
    match pe.2 with
    | .dir => varEtc
    | .file c => fnUpdate varEtc pe.1 (some (.file c))
  else
    match varEtc pe.1 with
    | some _ => varEtc
    | none =>
      match pe.2 with
      | .dir => mkdirAll varEtc pe.1
      | .file c => fnUpdate (mkdirAll varEtc pe.1.dropLast) pe.1 (some (.file c))

/-- The file-by-file merge walk over the container's /etc tree in walk
order (src/pkg/etc_persistence.go:207-242). -/
def mergeWalk (varEtc : EtcState) (containerEtc : List (List String × FsEntry)) : EtcState :=
  containerEtc.foldl mergeEntryStep varEtc

/-- One copy step of the initial rsync seeding
(src/pkg/etc_persistence.go:186-196): copy the entry verbatim, creating
parent directories. -/
def seedStep (s : EtcState) (pe : List String × FsEntry) : EtcState :=
  fnUpdate (mkdirAll s pe.1.dropLast) pe.1 (some pe.2)

/-- The /var/etc tree created from container defaults when no /var/etc
exists yet (src/pkg/etc_persistence.go:185-196). -/
def seedVarEtc (containerEtc : List (List String × FsEntry)) : EtcState :=
  containerEtc.foldl seedStep (fun _ => none)

/-- MergeEtcFromActive (src/pkg/etc_persistence.go:141-257) restricted to its
effect on the /var/etc store: absent /var/etc is seeded verbatim from the
container's /etc; an existing /var/etc receives the merge walk.  (The
trailing InstallEtcMountUnit call writes only into the new root's own tree,
not into the /var partition's /var/etc, so it does not appear here.) -/
def MergeEtcFromActive (varEtc : Option EtcState)
    (containerEtc : List (List String × FsEntry)) : EtcState :=
  match varEtc with
  | none => seedVarEtc containerEtc
  | some v => mergeWalk v containerEtc

/-! ### Helper lemmas about the merge -/

theorem fnUpdate_apply_ne (s : EtcState) (p q : List String) (e : Option FsEntry)
    (h : q ≠ p) : fnUpdate s p e q = s q := by
  simp [fnUpdate, h]

theorem fnUpdate_apply_self (s : EtcState) (p : List String) (e : Option FsEntry) :
    fnUpdate s p e p = e := by
  simp [fnUpdate]

/-- A mkdir fold never changes an occupied slot. -/
theorem mkdirFold_apply_some (l : List (List String)) (s : EtcState)
    (r : List String) (h : (s r).isSome) : (l.foldl mkdirStep s) r = s r := by
  induction l generalizing s with
  | nil => rfl
  | cons a l ih =>
    have hstep : (mkdirStep s a) r = s r := by
      by_cases ha : (s a).isSome
      · simp [mkdirStep, ha]
      · by_cases hra : r = a
        · subst hra; simp_all
        · simp [mkdirStep, ha, fnUpdate_apply_ne _ _ _ _ hra]
    have h2 : ((mkdirStep s a) r).isSome := by rw [hstep]; exact h
    calc ((a :: l).foldl mkdirStep s) r = (l.foldl mkdirStep (mkdirStep s a)) r := by rfl
      _ = (mkdirStep s a) r := ih _ h2
      _ = s r := hstep

theorem mkdirAll_apply_some (s : EtcState) (d r : List String) (h : (s r).isSome) :
    (mkdirAll s d) r = s r :=
  mkdirFold_apply_some _ s r h

/-- A mkdir fold keeps occupied slots occupied. -/
theorem mkdirFold_mono (l : List (List String)) (s : EtcState) (r : List String)
    (h : (s r).isSome) : ((l.foldl mkdirStep s) r).isSome := by
  rw [mkdirFold_apply_some l s r h]; exact h

/-- A mkdir fold occupies every listed slot. -/
theorem mkdirFold_isSome_mem (l : List (List String)) (s : EtcState) (r : List String)
    (h : r ∈ l) : ((l.foldl mkdirStep s) r).isSome := by
  induction l generalizing s with
  | nil => cases h
  | cons a l ih =>
    rcases List.mem_cons.1 h with rfl | hmem
    · have h1 : ((mkdirStep s r) r).isSome := by
        by_cases hr : (s r).isSome
        · simp [mkdirStep, hr]
        · simp [mkdirStep, hr, fnUpdate_apply_self]
      exact mkdirFold_mono l _ r h1
    · exact ih _ hmem

/-- mkdirAll occupies the directory it was asked to create (nonempty path). -/
theorem mkdirAll_isSome_self (s : EtcState) (d : List String) (h : d ≠ []) :
    ((mkdirAll s d) d).isSome := by
  apply mkdirFold_isSome_mem
  have hlen : 0 < d.length := List.length_pos.2 h
  have hmem : d.length ∈ List.range' 1 d.length :=
    List.mem_range'_1.2 ⟨by omega, by omega⟩
  have := List.mem_map_of_mem (fun n => d.take n) hmem
  simpa [ancestorsOf] using this

/-- A merge step never changes a slot whose path differs from the entry's. -/
theorem mergeEntryStep_apply_ne (s : EtcState) (pe : List String × FsEntry)
    (q : List String) (v : FsEntry) (hq : pe.1 ≠ q) (h : s q = some v) :
    (mergeEntryStep s pe) q = some v := by
  have hq' : q ≠ pe.1 := fun hh => hq hh.symm
  have hsome : (s q).isSome := by rw [h]; rfl
  unfold mergeEntryStep
  by_cases hb : pathBase pe.1 ∈ systemFiles
  · cases pe.2 with
    | dir => simpa [hb]
    | file c => simp [hb, fnUpdate_apply_ne _ _ _ _ hq', h]
  · cases hv : s pe.1 with
    | some w => simp [hb, hv, h]
    | none =>
      cases pe.2 with
      | dir => simp [hb, hv, mkdirAll_apply_some s pe.1 q hsome, h]
      | file c =>
        have hmk : (mkdirAll s pe.1.dropLast) q = s q :=
          mkdirAll_apply_some s _ q hsome
        simp [hb, hv, fnUpdate_apply_ne _ _ _ _ hq', hmk, h]

/-- A merge step never changes a slot that is occupied and whose base name
is not on the allow-list. -/
theorem mergeEntryStep_apply_notAllow (s : EtcState) (pe : List String × FsEntry)
    (q : List String) (v : FsEntry)
    (hb : pathBase q ∉ systemFiles) (h : s q = some v) :
    (mergeEntryStep s pe) q = some v := by
  by_cases hpq : pe.1 = q
  · subst hpq
    unfold mergeEntryStep
    simp [hb, h]
  · exact mergeEntryStep_apply_ne s pe q v hpq h

/-- The merge walk never changes a slot whose path is hit by no entry. -/
theorem mergeWalk_untouched (c : List (List String × FsEntry)) (s : EtcState)
    (q : List String) (v : FsEntry) (hc : ∀ pe ∈ c, pe.1 ≠ q) (h : s q = some v) :
    (mergeWalk s c) q = some v := by
  induction c generalizing s with
  | nil => exact h
  | cons a c ih =>
    have ha := hc a (List.mem_cons_self a c)
    exact ih _ (fun pe hpe => hc pe (List.mem_cons_of_mem a hpe))
      (mergeEntryStep_apply_ne s a q v ha h)

/-- The merge walk preserves every occupied slot whose base name is not on
the allow-list (the user-edit preservation invariant). -/
theorem mergeWalk_preserves (c : List (List String × FsEntry)) (s : EtcState)
    (q : List String) (v : FsEntry)
    (hb : pathBase q ∉ systemFiles) (h : s q = some v) :
    (mergeWalk s c) q = some v := by
  induction c generalizing s with
  | nil => exact h
  | cons a c ih =>
    exact ih _ (mergeEntryStep_apply_notAllow s a q v hb h)

/-- A merge step keeps occupied slots occupied. -/
theorem mergeEntryStep_mono (s : EtcState) (pe : List String × FsEntry)
    (q : List String) (h : (s q).isSome) : ((mergeEntryStep s pe) q).isSome := by
  rcases Option.isSome_iff_exists.1 h with ⟨v, hv⟩
  by_cases hpq : pe.1 = q
  · subst hpq
    unfold mergeEntryStep
    by_cases hb : pathBase pe.1 ∈ systemFiles
    · cases pe.2 with
      | dir => simp [hb, hv]
      | file c => simp [hb, fnUpdate_apply_self]
    · simp [hb, hv]
  · rw [mergeEntryStep_apply_ne s pe q v hpq hv]; rfl

/-- The merge walk keeps occupied slots occupied. -/
theorem mergeWalk_mono (c : List (List String × FsEntry)) (s : EtcState)
    (q : List String) (h : (s q).isSome) : ((mergeWalk s c) q).isSome := by
  induction c generalizing s with
  | nil => exact h
  | cons a c ih => exact ih _ (mergeEntryStep_mono s a q h)

/-- After the merge walk, an allow-listed file entry of the container has
exactly its container contents (walk paths visited once). -/
theorem mergeWalk_allowlist_final (c : List (List String × FsEntry)) (s : EtcState)
    (q : List String) (cnt : String)
    (hnodup : (c.map Prod.fst).Nodup)
    (hb : pathBase q ∈ systemFiles)
    (hmem : (q, FsEntry.file cnt) ∈ c) :
    (mergeWalk s c) q = some (.file cnt) := by
  induction c generalizing s with
  | nil => cases hmem
  | cons a c ih =>
    have hnodup' : (a.1 :: c.map Prod.fst).Nodup := by
      rw [List.map_cons] at hnodup; exact hnodup
    rcases List.mem_cons.1 hmem with heq | hmem'
    · subst heq
      have hknodup : q ∉ c.map Prod.fst := (List.nodup_cons.1 hnodup').1
      have hrest : ∀ pe ∈ c, pe.1 ≠ q := by
        intro pe hpe hcon
        exact hknodup (by rw [← hcon]; exact List.mem_map_of_mem Prod.fst hpe)
      have hstep : (mergeEntryStep s (q, FsEntry.file cnt)) q = some (.file cnt) := by
        unfold mergeEntryStep
        simp [hb, fnUpdate_apply_self]
      exact mergeWalk_untouched c _ q _ hrest hstep
    · exact ih _ (List.nodup_cons.1 hnodup').2 hmem'

/-- After the merge walk, every non-allow-listed file entry of the container
occupies its slot. -/
theorem mergeWalk_final_isSome_file (c : List (List String × FsEntry)) (s : EtcState)
    (q : List String) (cnt : String)
    (hb : pathBase q ∉ systemFiles)
    (hmem : (q, FsEntry.file cnt) ∈ c) :
    ((mergeWalk s c) q).isSome := by
  induction c generalizing s with
  | nil => cases hmem
  | cons a c ih =>
    rcases List.mem_cons.1 hmem with heq | hmem'
    · subst heq
      have hstep : ((mergeEntryStep s (q, FsEntry.file cnt)) q).isSome := by
        unfold mergeEntryStep
        cases hv : s q with
        | some w => simp [hb, hv]
        | none => simp [hb, hv, fnUpdate_apply_self]
      exact mergeWalk_mono c _ q hstep
    · exact ih _ hmem'

/-- After the merge walk, every non-allow-listed nonempty directory entry of
the container occupies its slot. -/
theorem mergeWalk_final_isSome_dir (c : List (List String × FsEntry)) (s : EtcState)
    (q : List String)
    (hb : pathBase q ∉ systemFiles) (hq : q ≠ [])
    (hmem : (q, FsEntry.dir) ∈ c) :
    ((mergeWalk s c) q).isSome := by
  induction c generalizing s with
  | nil => cases hmem
  | cons a c ih =>
    rcases List.mem_cons.1 hmem with heq | hmem'
    · subst heq
      have hstep : ((mergeEntryStep s (q, FsEntry.dir)) q).isSome := by
        unfold mergeEntryStep
        cases hv : s q with
        | some w => simp [hb, hv]
        | none => simpa [hb, hv] using mkdirAll_isSome_self s q hq
      exact mergeWalk_mono c _ q hstep
    · exact ih _ hmem'

/-- A seed-copy fold never changes a slot hit by no entry (other writes go
to different paths, mkdirAll keeps occupied slots). -/
theorem seedFold_untouched (c : List (List String × FsEntry)) (s : EtcState)
    (q : List String) (v : FsEntry) (hc : ∀ pe ∈ c, pe.1 ≠ q) (h : s q = some v) :
    (c.foldl seedStep s) q = some v := by
  induction c generalizing s with
  | nil => exact h
  | cons a c ih =>
    have ha := hc a (List.mem_cons_self a c)
    have ha' : q ≠ a.1 := fun hh => ha hh.symm
    have hsome : (s q).isSome := by rw [h]; rfl
    have hstep : (seedStep s a) q = some v := by
      unfold seedStep
      rw [fnUpdate_apply_ne _ _ _ _ ha', mkdirAll_apply_some s _ q hsome, h]
    exact ih _ (fun pe hpe => hc pe (List.mem_cons_of_mem a hpe)) hstep

/-- Seeding materializes every container entry verbatim (walk paths visited
once). -/
theorem seedVarEtc_final (c : List (List String × FsEntry))
    (q : List String) (e : FsEntry)
    (hnodup : (c.map Prod.fst).Nodup) (hmem : (q, e) ∈ c) :
    ∀ s : EtcState, (c.foldl seedStep s) q = some e := by
  induction c with
  | nil => cases hmem
  | cons a c ih =>
    intro s
    have hnodup' : (a.1 :: c.map Prod.fst).Nodup := by
      rw [List.map_cons] at hnodup; exact hnodup
    rcases List.mem_cons.1 hmem with heq | hmem'
    · subst heq
      have hknodup : q ∉ c.map Prod.fst := (List.nodup_cons.1 hnodup').1
      have hrest : ∀ pe ∈ c, pe.1 ≠ q := by
        intro pe hpe hcon
        exact hknodup (by rw [← hcon]; exact List.mem_map_of_mem Prod.fst hpe)
      have hstep : (seedStep s (q, e)) q = some e := by
        unfold seedStep
        exact fnUpdate_apply_self _ _ _
      exact seedFold_untouched c _ q _ hrest hstep
    · exact ih (List.nodup_cons.1 hnodup').2 hmem' _

/-- A fold collapses to its start state when every listed element fixes it. -/
theorem foldl_fixed {α β : Type} (f : β → α → β) (s : β) (l : List α)
    (h : ∀ x ∈ l, f s x = s) : l.foldl f s = s := by
  induction l with
  | nil => rfl
  | cons a l ih =>
    have ha : f s a = s := h a (List.mem_cons_self a l)
    calc (a :: l).foldl f s = l.foldl f (f s a) := rfl
      _ = l.foldl f s := by rw [ha]
      _ = s := ih (fun x hx => h x (List.mem_cons_of_mem a hx))

/-- A merge step fixes a state that already reflects it: allow-listed files
already hold the container contents, and every other entry's slot is either
occupied or is the empty-path directory (on which the step is a no-op). -/
theorem mergeEntryStep_fixed (w : EtcState) (pe : List String × FsEntry)
    (hallow : pathBase pe.1 ∈ systemFiles →
      ∀ cnt, pe.2 = FsEntry.file cnt → w pe.1 = some (.file cnt))
    (hpresent : pathBase pe.1 ∉ systemFiles →
      (pe.2 = FsEntry.dir ∧ pe.1 = []) ∨ (w pe.1).isSome) :
    mergeEntryStep w pe = w := by
  by_cases hb : pathBase pe.1 ∈ systemFiles
  · cases hfe : pe.2 with
    | dir => simp [mergeEntryStep, hb, hfe]
    | file cnt =>
      have hw := hallow hb cnt hfe
      funext q
      by_cases hq : q = pe.1
      · subst hq
        simp [mergeEntryStep, hb, hfe, fnUpdate_apply_self, hw.symm]
      · simp [mergeEntryStep, hb, hfe, fnUpdate_apply_ne _ _ _ _ hq]
  · rcases hpresent hb with ⟨hdir, hnil⟩ | hsome
    · cases hw : w pe.1 with
      | some x => simp [mergeEntryStep, hb, hw]
      | none =>
        simp [mergeEntryStep, hb, hw, hdir, hnil, mkdirAll, ancestorsOf]
        intro h2
        cases w [] <;> rfl
    · rcases Option.isSome_iff_exists.1 hsome with ⟨x, hx⟩
      simp [mergeEntryStep, hb, hx]

/-- Running the merge walk over a state that already absorbed the same
container tree changes nothing. -/
theorem mergeWalk_absorbed (varEtc : Option EtcState)
    (c : List (List String × FsEntry)) (hnodup : (c.map Prod.fst).Nodup) :
    mergeWalk (MergeEtcFromActive varEtc c) c = MergeEtcFromActive varEtc c := by
  apply foldl_fixed
  intro pe hpe
  have hmem : (pe.1, pe.2) ∈ c := by simpa using hpe
  cases varEtc with
  | none =>
    have hfin : (MergeEtcFromActive none c) pe.1 = some pe.2 :=
      seedVarEtc_final c pe.1 pe.2 hnodup hmem _
    apply mergeEntryStep_fixed
    · intro _ cnt hfe
      rw [hfin, hfe]
    · intro _
      right
      rw [hfin]
      rfl
  | some v =>
    apply mergeEntryStep_fixed
    · intro hb cnt hfe
      exact mergeWalk_allowlist_final c v pe.1 cnt hnodup hb (by rw [← hfe]; exact hmem)
    · intro hb
      cases hfe : pe.2 with
      | dir =>
        by_cases hnil : pe.1 = []
        · exact Or.inl ⟨rfl, hnil⟩
        · exact Or.inr (mergeWalk_final_isSome_dir c v pe.1 hb hnil (by rw [← hfe]; exact hmem))
      | file cnt =>
        exact Or.inr (mergeWalk_final_isSome_file c v pe.1 cnt hb (by rw [← hfe]; exact hmem))

/-- Claim C5: for every path already present in /var/etc whose base name is
not on the always-refresh allow-list, the merge leaves the /var/etc entry
(contents included) untouched, whatever the new container ships there. -/
theorem MergeEtcFromActive_preserves_user_edits (v : EtcState)
    (c : List (List String × FsEntry)) (p : List String) (e : FsEntry)
    (hmem : v p = some e) (hbase : pathBase p ≠ "os-release") :
    MergeEtcFromActive (some v) c p = some e := by
  exact mergeWalk_preserves c v p e (by simp [systemFiles, hbase]) hmem

/-- Witness for C5: /var/etc/hostname contains myhost, the new image ships a
different /etc/hostname, and after the merge /var/etc/hostname still
contains myhost. -/
theorem MergeEtcFromActive_preserves_user_edits_witness :
    MergeEtcFromActive
      (some (fnUpdate (fun _ => none) ["hostname"] (some (.file "myhost"))))
      [(["hostname"], .file "newhost"), (["os-release"], .file "NEW")]
      ["hostname"] = some (.file "myhost") := by
  exact MergeEtcFromActive_preserves_user_edits _ _ _ _ (by rfl) (by decide)

/-- Claim C6: the /etc merge is idempotent — re-running the merge with the
same container tree (each walk path listed once) leaves every path of
/var/etc byte-identical to its state after the first run, for both the
seeding branch (no /var/etc yet) and the merging branch. -/
theorem MergeEtcFromActive_idempotent (varEtc : Option EtcState)
    (c : List (List String × FsEntry)) (hnodup : (c.map Prod.fst).Nodup)
    (p : List String) :
    MergeEtcFromActive (some (MergeEtcFromActive varEtc c)) c p =
      MergeEtcFromActive varEtc c p := by
  have h := mergeWalk_absorbed varEtc c hnodup
  calc MergeEtcFromActive (some (MergeEtcFromActive varEtc c)) c p
      = (mergeWalk (MergeEtcFromActive varEtc c) c) p := rfl
    _ = (MergeEtcFromActive varEtc c) p := by rw [h]

/-- Witness for C6: a second merge of a two-entry container tree over a
/var/etc holding one user file changes nothing at the probed paths. -/
theorem MergeEtcFromActive_idempotent_witness :
    MergeEtcFromActive
      (some (MergeEtcFromActive
        (some (fnUpdate (fun _ => none) ["hostname"] (some (.file "myhost"))))
        [(["os-release"], .file "distro"), (["motd"], .file "hi")]))
      [(["os-release"], .file "distro"), (["motd"], .file "hi")] ["motd"] =
    MergeEtcFromActive
      (some (fnUpdate (fun _ => none) ["hostname"] (some (.file "myhost"))))
      [(["os-release"], .file "distro"), (["motd"], .file "hi")] ["motd"] := by
  exact MergeEtcFromActive_idempotent _ _ (by decide) _

/-- Claim C10: the always-refresh allow-list is matched by base filename only
and contains exactly os-release, so every container file whose base name is
os-release — at any depth — overwrites the corresponding /var/etc entry
unconditionally, even over an existing user-modified copy. -/
theorem MergeEtcFromActive_refreshes_os_release (v : EtcState)
    (c : List (List String × FsEntry)) (p : List String) (cnt : String)
    (hnodup : (c.map Prod.fst).Nodup)
    (hbase : pathBase p = "os-release")
    (hmem : (p, FsEntry.file cnt) ∈ c) :
    MergeEtcFromActive (some v) c p = some (.file cnt) ∧
    (∀ name, name ∈ systemFiles ↔ name = "os-release") := by
  constructor
  · exact mergeWalk_allowlist_final c v p cnt hnodup (by simp [systemFiles, hbase]) hmem
  · intro name
    simp [systemFiles]

/-- Witness for C10: a nested sub/os-release with a user-modified copy in
/var/etc is overwritten with the container contents. -/
theorem MergeEtcFromActive_refreshes_os_release_witness :
    MergeEtcFromActive
      (some (fnUpdate (fun _ => none) ["sub", "os-release"] (some (.file "user-edited"))))
      [(["sub"], .dir), (["sub", "os-release"], .file "distro")]
      ["sub", "os-release"] = some (.file "distro") := by
  exact (MergeEtcFromActive_refreshes_os_release _ _ _ _ (by decide) (by decide)
    (by decide)).1

/-! ## Container layer extraction with whiteout semantics

Modelled from the spec: the final go-containerregistry-based Extract in
pkg/container.go (which applies the manifest's ordered layers onto the
target directory with overlay whiteout handling, per the repository's
implementation summary) is not present under src/ — the src snapshot holds
only the earlier podman-export revision, which delegates layer flattening to
podman.  Component names are character lists so that the .wh. naming
convention is analyzed structurally. -/

/-- A path inside a layer: a list of component names (character lists). -/
abbrev LayerPath := List (List Char)

/-- State of the extraction target: path to entry. -/
abbrev FsTree := LayerPath → Option FsEntry

/-- The whiteout marker prefix of the OCI layer convention. -/
def whMarker : List Char := ['.', 'w', 'h', '.']

/-- The opaque-directory marker entry name of the OCI layer convention. -/
def opqMarker : List Char := ".wh..wh..opq".toList

/-- Delete a path and everything below it from the tree. -/
def removeSubtree (t : FsTree) (target : LayerPath) : FsTree :=
  fun r => if target.isPrefixOf r then none else t r

/-- Delete every strict descendant of a directory from the tree (the opaque
marker: children materialized from prior layers are removed). -/
def removeChildren (t : FsTree) (d : LayerPath) : FsTree :=
  fun r => if d.isPrefixOf r ∧ r ≠ d then none else t r

/-- Write one path verbatim. -/
def writeNode (t : FsTree) (p : LayerPath) (e : FsEntry) : FsTree :=
  fun r => if r = p then some e else t r

/-- Modelled from the spec: applying one tar entry of a layer.  An entry
whose base name is .wh..wh..opq marks its directory opaque; an entry whose
base name is .wh.<name> deletes <name> from the accumulated tree before
extraction continues; every other entry is written verbatim. -/
def applyTarEntry (t : FsTree) (pe : LayerPath × FsEntry) : FsTree :=
  match pe.1.getLast? with
  | none => t
  | some b =>
    let d := pe.1.dropLast
    if b = opqMarker then removeChildren t d
    else if whMarker.isPrefixOf b then removeSubtree t (d ++ [b.drop 4])
    else writeNode t pe.1 pe.2

/-- Modelled from the spec: applying one layer is applying its tar entries
in order. -/
def applyLayer (t : FsTree) (layer : List (LayerPath × FsEntry)) : FsTree :=
  layer.foldl applyTarEntry t

/-- Modelled from the spec: Extract applies the manifest's layers strictly
in order onto the target tree. -/
def Extract (t0 : FsTree) (layers : List (List (LayerPath × FsEntry))) : FsTree :=
  layers.foldl applyLayer t0

/-- Entries that do not write into the subtree below target keep that
subtree deleted. -/
theorem applyTarEntry_keeps_deleted (t : FsTree) (pe : LayerPath × FsEntry)
    (target : LayerPath) (hpe : ¬ target.isPrefixOf pe.1)
    (h : ∀ r, target.isPrefixOf r → t r = none) :
    ∀ r, target.isPrefixOf r → (applyTarEntry t pe) r = none := by
  intro r hr
  unfold applyTarEntry
  cases hlast : pe.1.getLast? with
  | none => exact h r hr
  | some b =>
    by_cases hopq : b = opqMarker
    · simp only [hopq, if_pos rfl]
      unfold removeChildren
      by_cases hc : pe.1.dropLast.isPrefixOf r ∧ r ≠ pe.1.dropLast
      · simp [hc]
      · simp [hc, h r hr]
    · by_cases hwh : whMarker.isPrefixOf b
      · simp only [hopq, if_neg, hwh, if_pos]
        unfold removeSubtree
        by_cases hc : (pe.1.dropLast ++ [b.drop 4]).isPrefixOf r
        · simp [hc]
        · simp [hc, h r hr]
      · simp only [hopq, hwh, if_neg, Bool.false_eq_true, not_false_eq_true]
        unfold writeNode
        have hrp : r ≠ pe.1 := by
          intro hcon
          exact hpe (hcon ▸ hr)
        simp [hrp, h r hr]

/-- A run of entries none of which writes into the subtree below target
keeps that subtree deleted. -/
theorem applyLayerRun_keeps_deleted (post : List (LayerPath × FsEntry)) (t : FsTree)
    (target : LayerPath) (hpost : ∀ pe ∈ post, ¬ target.isPrefixOf pe.1)
    (h : ∀ r, target.isPrefixOf r → t r = none) :
    ∀ r, target.isPrefixOf r → (post.foldl applyTarEntry t) r = none := by
  induction post generalizing t with
  | nil => exact h
  | cons a post ih =>
    exact ih _ (fun pe hpe => hpost pe (List.mem_cons_of_mem a hpe))
      (applyTarEntry_keeps_deleted t a target (hpost a (List.mem_cons_self a post)) h)

/-- Claim C3: for every image whose ordered layers write a file (for
instance /bin/foo) in an earlier layer and carry an entry named .wh.<name>
in the corresponding directory of a later layer, extraction leaves the
target without <name>: the whiteout entry deletes <name> (and everything
below it) from the accumulated tree before extraction continues, and no
later entry of that layer recreating it means it stays absent. -/
theorem Extract_whiteout_deletes (t0 : FsTree)
    (earlier : List (List (LayerPath × FsEntry)))
    (pre post : List (LayerPath × FsEntry))
    (d : LayerPath) (name : List Char) (e : FsEntry)
    (hname : whMarker ++ name ≠ opqMarker)
    (hpost : ∀ pe ∈ post, ¬ (d ++ [name]).isPrefixOf pe.1) :
    ∀ r, (d ++ [name]).isPrefixOf r →
      Extract t0 (earlier ++ [pre ++ (d ++ [whMarker ++ name], e) :: post]) r = none := by
  intro r hr
  have hfold : Extract t0 (earlier ++ [pre ++ (d ++ [whMarker ++ name], e) :: post]) =
      applyLayer (Extract t0 earlier) (pre ++ (d ++ [whMarker ++ name], e) :: post) := by
    unfold Extract
    rw [List.foldl_append]
    rfl
  rw [hfold]
  unfold applyLayer
  rw [List.foldl_append, List.foldl_cons]
  set t2 := pre.foldl applyTarEntry (Extract t0 earlier) with ht2
  have hwh : applyTarEntry t2 (d ++ [whMarker ++ name], e) =
      removeSubtree t2 (d ++ [name]) := by
    unfold applyTarEntry
    have hlast : (d ++ [whMarker ++ name]).getLast? = some (whMarker ++ name) := by
      simp
    have hdrop : (d ++ [whMarker ++ name]).dropLast = d := by
      simp
    have hpfx : whMarker.isPrefixOf (whMarker ++ name) = true := by
      simp [List.isPrefixOf_iff_prefix]
    have hdrop4 : (whMarker ++ name).drop 4 = name := by
      have : whMarker.length = 4 := rfl
      rw [← this, List.drop_left]
    rw [hlast]
    simp [hname, hpfx, hdrop, hdrop4]
  rw [hwh]
  have hdel : ∀ r, (d ++ [name]).isPrefixOf r →
      (removeSubtree t2 (d ++ [name])) r = none := by
    intro r hr
    unfold removeSubtree
    simp [hr]
  exact applyLayerRun_keeps_deleted post _ _ hpost hdel r hr

/-- Witness for C3: layer A writes /bin and /bin/foo, layer B holds only
/bin/.wh.foo; after extraction onto an empty target, /bin/foo is gone, while
it was present after layer A alone. -/
theorem Extract_whiteout_deletes_witness :
    Extract (fun _ => none)
      [[(["bin".toList], FsEntry.dir), (["bin".toList, "foo".toList], FsEntry.file "x")]]
      ["bin".toList, "foo".toList] = some (.file "x") ∧
    Extract (fun _ => none)
      [[(["bin".toList], FsEntry.dir), (["bin".toList, "foo".toList], FsEntry.file "x")],
       [(["bin".toList, ".wh.foo".toList], FsEntry.file "")]]
      ["bin".toList, "foo".toList] = none := by
  constructor
  · decide
  · exact Extract_whiteout_deletes (fun _ => none)
      [[(["bin".toList], FsEntry.dir), (["bin".toList, "foo".toList], FsEntry.file "x")]]
      [] [] ["bin".toList] "foo".toList (FsEntry.file "") (by decide)
      (by intro pe hpe; cases hpe) _ (by decide)

/-! ## UAPI mount ordering (MountPartitions)

Modelled from the spec: the UAPI-compliant revision of MountPartitions in
pkg/partition.go is not present under src/ (the src snapshot holds the
earlier nested-ESP revision); the repository's UAPI compliance document
quotes the final code, which mounts the chosen root at the mount point,
XBOOTLDR at boot, ESP at the sibling efi mount point, then Var at var. -/

/-- One mount action: a partition device mounted at a target directory. -/
structure MountOp where
  source : String
  target : String
deriving DecidableEq, Repr

/-- Modelled from the spec: MountPartitions mounts, in order, the chosen
root partition at the mount point, the XBOOTLDR partition at boot, the ESP
at the sibling efi mount point (never nested under boot), and the Var
partition at var. -/
def MountPartitions (scheme : PartitionScheme) (mountPoint : String) : List MountOp :=
  [⟨scheme.Root1Partition, mountPoint⟩,
   ⟨scheme.BootPartition, mountPoint ++ "/boot"⟩,
   ⟨scheme.EFIPartition, mountPoint ++ "/efi"⟩,
   ⟨scheme.VarPartition, mountPoint ++ "/var"⟩]

/-- Claim C4: MountPartitions performs exactly the four mounts in UAPI
order — root first, then XBOOTLDR at boot, then the ESP at a sibling efi
mount point, then Var at var — and the ESP target is never nested under the
boot target: no path below boot equals the efi mount point. -/
theorem MountPartitions_uapi_order (scheme : PartitionScheme) (mountPoint : String) :
    (MountPartitions scheme mountPoint).map MountOp.source =
      [scheme.Root1Partition, scheme.BootPartition, scheme.EFIPartition,
        scheme.VarPartition] ∧
    (MountPartitions scheme mountPoint).map MountOp.target =
      [mountPoint, mountPoint ++ "/boot", mountPoint ++ "/efi", mountPoint ++ "/var"] ∧
    (∀ s : String, mountPoint ++ "/efi" ≠ (mountPoint ++ "/boot") ++ ("/" ++ s)) := by
  refine ⟨rfl, rfl, ?_⟩
  intro s hcon
  have hlen := congrArg String.length hcon
  have h5 : ("/boot" : String).length = 5 := rfl
  have h4 : ("/efi" : String).length = 4 := rfl
  have h1 : ("/" : String).length = 1 := rfl
  simp [String.length_append, h5, h4, h1] at hlen
  omega

end Phukit
